import Mathlib

/-!
# Verification of the go-ha automation runtime (Xevion/go-ha)

A shallow embedding, in Lean 4, of the scheduling and dispatch core of the
go-ha Home Assistant client library, together with theorems settling the
frozen claims about it.

Modelling conventions:
* Instants are integers.  Where the Go code works at nanosecond precision
  (`time.Time`, `time.Duration`) we use nanoseconds since the Unix epoch;
  where a function only ever observes whole seconds we use seconds since the
  Unix epoch.  Each definition states which unit it uses.
* Local time is modelled with a fixed offset from UTC (the offset is folded
  into the instants), so a calendar day is exactly 86400 seconds.  Daylight
  saving transitions are outside the model.
* Go's `carbon` helper methods used by the source behave as follows and are
  embedded accordingly: `SetHour`/`SetMinute` replace one component and keep
  all smaller components (seconds, nanoseconds); `SetTimeMilli(h, m, 0, 0)`
  replaces the whole time-of-day; `AddDay` adds one calendar day;
  `DiffAbsInSeconds` is the absolute difference of the two unix-second
  timestamps; `IsPast`/`IsFuture` compare strictly against now;
  `BetweenIncludedStart s e` is `s ≤ t ∧ t < e`.
* Fallible Go code becomes `Option`/`Except`; a Go loop that can fail to
  terminate is embedded as a function into an outcome type with an explicit
  "diverged" constructor.
* External astronomy (`go-sunrise`) is out of scope per the specification and
  enters the model only through the `Option`-valued sunrise/sunset instants
  that its caller consumes.
-/

namespace GoHA

/-- Seconds since the local-midnight boundary containing `t`
(`t` in unix seconds); `carbon`'s start-of-day for the instant. -/
def dayStart (t : Int) : Int := t - t % 86400

/-- Local hour component of an instant in unix seconds. -/
def localHour (t : Int) : Int := t % 86400 / 3600

/-- Local minute component of an instant in unix seconds. -/
def localMinute (t : Int) : Int := t % 86400 % 3600 / 60

/-- Local second component of an instant in unix seconds. -/
def localSecond (t : Int) : Int := t % 60

/-! ## Triggers (internal/scheduling/trigger.go) -/

/-- `FixedTimeTrigger.NextTime` (internal/scheduling).  The source builds
`carbon.NewCarbon(now).SetHour(t.Hour).SetMinute(t.Minute)` — which keeps
`now`'s seconds (and sub-second) component — and adds a day when the result
is not strictly after `now`.  Instants in unix seconds. -/
def fixedTimeNextTime (hour minute : Int) (now : Int) : Int :=
  let next := dayStart now + 3600 * hour + 60 * minute + now % 60
  if next > now then next else next + 86400

/-- `SunTrigger.NextTime` (internal/scheduling).  `riseT`/`setT` are the
sunrise/sunset instants the external `sunrise.SunriseSunset` call produced
for `now`'s calendar date (`none` models Go's zero `time.Time`, returned in
polar regions).  The offset is added only when set and non-zero.  The
function never compares the sun event against `now`.  Instants in unix
seconds, offset in seconds. -/
def sunTriggerNextTime (sunset : Bool) (offset : Option Int)
    (riseT setT : Option Int) : Option Int :=
  let sun := if sunset then setT else riseT
  match sun with
  | none => none
  | some s =>
      match offset with
      | some o => if o ≠ 0 then some (s + o) else some s
      | none => some s

/-- One iteration of the accumulator update in
`CompositeDailySchedule.NextTime`: replace `best` by `potential` when
`potential != nil && (best == nil || potential.Before(*best))`. -/
def compositeStep (best potential : Option Int) : Option Int :=
  match potential with
  | none => best
  | some p =>
      match best with
      | none => some p
      | some b => if p < b then some p else some b

/-- `CompositeDailySchedule.NextTime` (internal/scheduling), as a function of
the children's `NextTime(now)` results: `best` starts at `triggers[0]`'s
result and the loop folds `compositeStep` over the remaining results. -/
def compositeNextTime (first : Option Int) (rest : List (Option Int)) :
    Option Int :=
  rest.foldl compositeStep first

/-- Minimum of two optional instants, ignoring `none`. -/
def optMinStep : Option Int → Option Int → Option Int
  | none, m => m
  | some a, none => some a
  | some a, some b => some (min a b)

/-- Modelled from the spec: "composite's `nextTime` is the minimum non-null
child result" — the minimum of a list of optional instants, ignoring `none`,
`none` when all are `none`.  Stated independently of the source so that
`compositeNextTime` can be compared against it. -/
def specMinOfOptions : List (Option Int) → Option Int
  | [] => none
  | x :: xs => optMinStep x (specMinOfOptions xs)

/-- `IntervalTrigger` (internal/scheduling/interval.go).  The constructor
`NewIntervalTrigger(interval, additional...)` guarantees a non-empty interval
list, modelled as a head plus a tail.  Durations in nanoseconds, `epoch`
`none` for Go's zero `time.Time` (replaced by `time.Unix(0, 0)` in
`NextTime`). -/
structure IntervalTrigger where
  intervalsFst : Int
  intervalsRest : List Int
  epoch : Option Int
  totalDuration : Int

/-- `NewIntervalTrigger` (internal/scheduling/interval.go): rejects any
non-positive interval and sums the intervals into `totalDuration`; the
default epoch is the zero time. -/
def newIntervalTrigger (interval : Int) (additional : List Int) :
    Option IntervalTrigger :=
  if interval ≤ 0 ∨ additional.any (fun d => d ≤ 0) then none
  else some ⟨interval, additional, none, interval + additional.sum⟩

/-- The scan loop inside `IntervalTrigger.NextTime`: starting from the cycle
start, add each interval in turn and return the first accumulated instant
strictly after `now`; `none` when the cycle is exhausted. -/
def intervalScan (now : Int) : Int → List Int → Option Int
  | _, [] => none
  | cycle, d :: rest =>
      let c := cycle + d
      if now < c then some c else intervalScan now c rest

/-- `IntervalTrigger.NextTime` (internal/scheduling/interval.go).  Instants
and durations in nanoseconds.  Go's duration division truncates toward zero,
hence `Int.tdiv`. -/
def intervalNextTime (t : IntervalTrigger) (now : Int) : Option Int :=
  if t.totalDuration = 0 then none
  else
    let epoch := t.epoch.getD 0
    if now < epoch then some (epoch + t.intervalsFst)
    else
      let cyclesSinceEpoch := (now - epoch).tdiv t.totalDuration
      let currentCycleStart := epoch + cyclesSinceEpoch * t.totalDuration
      match intervalScan now currentCycleStart
          (t.intervalsFst :: t.intervalsRest) with
      | some c => some c
      | none => some (currentCycleStart + t.totalDuration + t.intervalsFst)

/-! ## Condition evaluator (conditions.go) -/

/-- `CheckWithinTimeRange` (conditions.go).  `startT`/`endT` are the parsed
`HH:MM` values as seconds past local midnight (`none` for the empty string).
`internal.ParseTime` sets the parsed value on today's date at second 0, so
both bounds live in `now`'s day before the midnight-crossing adjustment.
Returns the `fail` flag of the `ConditionCheck`.  `now` in unix seconds. -/
def checkWithinTimeRange (startT endT : Option Int) (now : Int) : Bool :=
  match startT, endT with
  | some s, some e =>
      let parsedStart := dayStart now + s
      let parsedEnd := dayStart now + e
      -- midnight overlap: if end < start, extend the side containing now
      let (parsedStart, parsedEnd) :=
        if parsedEnd < parsedStart then
          if parsedEnd < now then (parsedStart, parsedEnd + 86400)
          else (parsedStart - 86400, parsedEnd)
        else (parsedStart, parsedEnd)
      -- fail unless now ∈ [parsedStart, parsedEnd)
      !(parsedStart ≤ now ∧ now < parsedEnd : Bool)
  | some s, none => decide (now < dayStart now + s)   -- start.IsFuture()
  | none, some e => decide (dayStart now + e < now)   -- end.IsPast()
  | none, none => false

/-- `CheckStatesMatch` (conditions.go): fail iff the listener's state is set
and differs from the observed state. -/
def checkStatesMatch (listenerState s : String) : Bool :=
  decide (listenerState ≠ "" ∧ listenerState ≠ s)

/-- `CheckThrottle` (conditions.go).  `throttle` in nanoseconds (Go
`time.Duration`), `lastRan`/`now` in nanoseconds since the epoch.
`throttle.Seconds() > 0` is `0 < throttle`; `carbon`'s `DiffAbsInSeconds` is
the absolute difference of the unix-second timestamps (`Int.fdiv` by 10⁹,
matching Go's flooring `Unix()`); `int64(throttle.Seconds())` truncates
toward zero (`Int.tdiv`; the float rounding of `Seconds()` is exact in the
ranges of interest). -/
def checkThrottle (throttle lastRan now : Int) : Bool :=
  decide (0 < throttle ∧
    |now.fdiv 1000000000 - lastRan.fdiv 1000000000| < throttle.tdiv 1000000000)

/-- `CheckExceptionDates` (conditions.go): fail iff today's calendar date
(modelled as the local day number) equals some entry's date. -/
def checkExceptionDates (dates : List Int) (today : Int) : Bool :=
  dates.any (fun d => d = today)

/-- `CheckExceptionRanges` (conditions.go): fail iff `now` is strictly inside
some range (`now.After(start) && now.Before(end)`).  Nanosecond instants. -/
def checkExceptionRanges (ranges : List (Int × Int)) (now : Int) : Bool :=
  ranges.any (fun r => r.1 < now ∧ now < r.2)

/-- `EnabledDisabledInfo` (internal/misc.go). -/
structure EnabledDisabledInfo where
  entity : String
  state : String
  runOnError : Bool

/-- `CheckEnabledEntity` (conditions.go).  `lookup` models
`State.Equals` resolved to the fetched state string (`Except` for the
network error).  Fail on the first predicate whose entity fetch fails with
`runOnError = false`, or whose state does not match. -/
def checkEnabledEntity (lookup : String → Except Unit String) :
    List EnabledDisabledInfo → Bool
  | [] => false
  | edi :: rest =>
      match lookup edi.entity with
      | .error _ =>
          if edi.runOnError then checkEnabledEntity lookup rest else true
      | .ok s =>
          if s = edi.state then checkEnabledEntity lookup rest else true

/-- `CheckDisabledEntity` (conditions.go): as `CheckEnabledEntity` but fail
when the state matches. -/
def checkDisabledEntity (lookup : String → Except Unit String) :
    List EnabledDisabledInfo → Bool
  | [] => false
  | edi :: rest =>
      match lookup edi.entity with
      | .error _ =>
          if edi.runOnError then checkDisabledEntity lookup rest else true
      | .ok s =>
          if s = edi.state then true else checkDisabledEntity lookup rest

/-! ## Schedule and interval registration (app.go) -/

/-- The fields of `DailySchedule` (daily.go) that `RegisterSchedules`
consults. -/
structure DailySchedule where
  hour : Int
  minute : Int
  isSunrise : Bool
  isSunset : Bool

/-- A `types.Item` on the schedules priority queue: the schedule together
with its `Priority` (`float64(nextRunTime.Unix())`, exact for realistic
instants, kept as the integer unix-second value). -/
structure SchedItem where
  value : DailySchedule
  priority : Int

/-- One iteration of `App.RegisterSchedules` (app.go lines 172–195) for a
single schedule, as a transformation of the schedules queue (modelled as the
multiset of its items, in insertion order).  On the sunrise/sunset path the
source computes `nextRunTime` on its local copy and then calls
`app.schedules.Put()` with **no arguments** — a no-op on the queue.  On the
fixed-time path `carbon.Now().SetTimeMilli(hour, minute, 0, 0)` is today at
`hour:minute:00`, advanced one day when strictly before now, and the item is
enqueued with the unix-second priority.  `now` in unix seconds. -/
def registerScheduleStep (now : Int) (s : DailySchedule)
    (queue : List SchedItem) : List SchedItem :=
  if s.isSunrise || s.isSunset then
    queue
  else
    let startTime := dayStart now + 3600 * s.hour + 60 * s.minute
    let startTime := if startTime < now then startTime + 86400 else startTime
    queue ++ [⟨s, startTime⟩]

/-- Outcome of one iteration of `App.RegisterIntervals` (app.go lines
197–214) for a single interval: the source panics when `frequency == 0`
(`failFast`); otherwise it advances `nextRunTime` (parsed from `startTime`,
today at the given `HH:MM`) by `frequency` while it is before now — a loop
that never terminates when `frequency < 0` and the start lies in the past
(`diverged`) — and finally enqueues the interval with the unix-second
priority (`enqueued`). -/
inductive RegisterIntervalOutcome where
  | failFast : RegisterIntervalOutcome
  | diverged : RegisterIntervalOutcome
  | enqueued (priority : Int) : RegisterIntervalOutcome
deriving DecidableEq, Repr

/-- The advancing loop `for i.nextRunTime.Before(now) { i.nextRunTime =
i.nextRunTime.Add(i.frequency) }` for a strictly positive frequency, for
which it terminates. -/
def advanceBy (now : Int) (frequency : Nat) (hf : 0 < frequency)
    (next : Int) : Int :=
  if hlt : next < now then
    advanceBy now frequency hf (next + frequency)
  else next
termination_by (now - next).toNat
decreasing_by
  simp only [Int.lt_iff_add_one_le] at hlt
  omega

/-- One iteration of `App.RegisterIntervals` (app.go lines 197–214) for a
single interval.  `hour`/`minute` come from the interval's `startTime`
string (`internal.ParseTime`, today at that time, seconds 0); `now` and the
resulting priority in unix seconds; `frequency` in seconds (the source's
`time.Duration` advances whole `nextRunTime` instants, observed here at
second granularity). -/
def registerIntervalOutcome (frequency : Int) (hour minute : Int)
    (now : Int) : RegisterIntervalOutcome :=
  if frequency = 0 then .failFast
  else
    let next := dayStart now + 3600 * hour + 60 * minute
    if hnext : next < now then
      if hf : 0 < frequency then
        .enqueued (advanceBy now frequency.toNat (by omega) next)
      else .diverged
    else .enqueued next

/-! ## Entity-listener dispatch (entityListener.go, `callEntityListeners`) -/

/-- The fields of `EntityListener` the dispatch path reads.  `betweenStart`/
`betweenEnd` are the parsed `HH:MM` window bounds in seconds past midnight
(`none` for the empty string); `throttle` and `delay` in nanoseconds;
exception dates as local day numbers; exception ranges as nanosecond
instants. -/
structure EntityListener where
  entityIds : List String
  fromState : String
  toState : String
  throttle : Int
  delay : Int
  betweenStart : Option Int
  betweenEnd : Option Int
  exceptionDates : List Int
  exceptionRanges : List (Int × Int)
  enabledEntities : List EnabledDisabledInfo
  disabledEntities : List EnabledDisabledInfo
  runOnStartup : Bool
  runOnStartupCompleted : Bool

/-- The `event.data` of a `state_changed` message as read by
`callEntityListeners`. -/
structure StateChangedEvent where
  entityId : String
  oldState : String
  newState : String

/-- Mutable per-listener runtime state: the delay timers started so far
(`true` = stopped before expiry; `l.delayTimer` refers to the last started
one, `nil` iff none was ever started), the `lastRan` instant (nanoseconds)
and the number of callbacks already run without delay. -/
structure ListenerRuntime where
  timers : List Bool
  lastRan : Int
  immediateFires : Nat

/-- `time.Timer.Stop()` on `l.delayTimer`, which is the most recently
started timer: mark it stopped. -/
def stopLastTimer : List Bool → List Bool
  | [] => []
  | ts => ts.dropLast ++ [true]

/-- The environment a dispatch step runs in: the wall-clock instant
(nanoseconds) at which the checks evaluate, and the live entity-state lookup
used by the enabled/disabled predicates. -/
structure DispatchEnv where
  now : Int
  lookup : String → Except Unit String

/-- The per-listener body of `callEntityListeners` (entityListener.go lines
391–442): evaluate the conditions in source order; a failing `toState` match
stops the pending delay timer if one exists; on pass, either start a delay
timer (`delay != 0`) or run the callback immediately and update `lastRan`. -/
def callListenerStep (env : DispatchEnv) (l : EntityListener)
    (e : StateChangedEvent) (rt : ListenerRuntime) : ListenerRuntime :=
  if checkWithinTimeRange l.betweenStart l.betweenEnd
      (env.now.fdiv 1000000000) then rt
  else if checkStatesMatch l.fromState e.oldState then rt
  else if checkStatesMatch l.toState e.newState then
    if rt.timers ≠ [] then { rt with timers := stopLastTimer rt.timers }
    else rt
  else if checkThrottle l.throttle rt.lastRan env.now then rt
  else if checkExceptionDates l.exceptionDates
      (env.now.fdiv 86400000000000) then rt
  else if checkExceptionRanges l.exceptionRanges env.now then rt
  else if checkEnabledEntity env.lookup l.enabledEntities then rt
  else if checkDisabledEntity env.lookup l.disabledEntities then rt
  else if l.delay ≠ 0 then { rt with timers := rt.timers ++ [false] }
  else { rt with immediateFires := rt.immediateFires + 1,
                 lastRan := env.now }

/-- `callEntityListeners` (entityListener.go lines 372–443) restricted to one
listener: the message is dropped when no listener is registered for its
entity id or when the new state equals the old state; otherwise the
per-listener body runs. -/
def callEntityListeners (env : DispatchEnv) (l : EntityListener)
    (e : StateChangedEvent) (rt : ListenerRuntime) : ListenerRuntime :=
  if !(l.entityIds.contains e.entityId) then rt
  else if e.newState = e.oldState then rt
  else callListenerStep env l e rt

/-- Delay timers still pending: each will invoke the callback when it
expires unless a later event stops it. -/
def pendingFires (rt : ListenerRuntime) : Nat :=
  rt.timers.countP (fun stopped => stopped = false)

/-- Callbacks that have fired or will fire once the pending delay timers
expire with no further events arriving. -/
def totalFires (rt : ListenerRuntime) : Nat :=
  rt.immediateFires + pendingFires rt

/-! ## Startup pass of `App.Start` (app.go lines 305–326) -/

/-- The entity state consumed by the startup pass (the `State` string field;
the attribute and timestamp fields travel alongside identically). -/
structure EntityState where
  state : String
deriving DecidableEq, Repr

/-- Modelled from the spec: `StateImpl.Get` (the state registry of spec
§4.2) is not among the provided sources; per its `(EntityState, error)`
signature used in app.go, a failed fetch yields the zero-value
`EntityState` alongside the error, per Go convention. -/
def stateGetValue (fetched : Except Unit EntityState) : EntityState :=
  match fetched with
  | .ok s => s
  | .error _ => ⟨""⟩

/-- The `EntityData` passed to a startup callback. -/
structure StartupInvocation where
  triggerEntityId : String
  fromState : String
  toState : String
deriving DecidableEq, Repr

/-- The body of the `runOnStartup` pass of `App.Start` (app.go lines
305–326) for one `(entityId, listener)` pair: when the listener wants a
startup run that has not yet happened, fetch the entity state (a fetch error
is only logged), mark `runOnStartupCompleted`, and invoke the callback with
the fetched state as both `FromState` and `ToState`.  Returns the new
`runOnStartupCompleted` flag and the invocation made, if any. -/
def runOnStartupStep (fetched : Except Unit EntityState) (eid : String)
    (l : EntityListener) : Bool × Option StartupInvocation :=
  if l.runOnStartup ∧ ¬l.runOnStartupCompleted then
    let entityState := stateGetValue fetched
    (true, some ⟨eid, entityState.state, entityState.state⟩)
  else (l.runOnStartupCompleted, none)

/-! ## Theorems -/

/-- Quotient and remainder of `b * q + r` by `b` when `0 ≤ r < b`. -/
theorem int_div_decomp (b q r : Int) (h0 : 0 ≤ r) (h1 : r < b) :
    (b * q + r) / b = q ∧ (b * q + r) % b = r := by
  have hb : b ≠ 0 := by omega
  constructor
  · rw [add_comm, Int.add_mul_ediv_left r q hb, Int.ediv_eq_zero_of_lt h0 h1,
      zero_add]
  · rw [add_comm, Int.add_mul_emod_self_left, Int.emod_eq_of_lt h0 h1]

/-- The local clock components of an instant decomposed as whole days plus a
time of day `3600·hour + 60·minute + sec`. -/
theorem localFields_of_decomp (X k hour minute sec : Int)
    (hh0 : 0 ≤ hour) (hh1 : hour ≤ 23) (hm0 : 0 ≤ minute) (hm1 : minute ≤ 59)
    (hs0 : 0 ≤ sec) (hs1 : sec < 60)
    (hX : X = 86400 * k + (3600 * hour + (60 * minute + sec))) :
    localHour X = hour ∧ localMinute X = minute ∧ localSecond X = sec := by
  have hu0 : (0 : Int) ≤ 60 * minute + sec := by omega
  have hu1 : 60 * minute + sec < 3600 := by omega
  have hr0 : (0 : Int) ≤ 3600 * hour + (60 * minute + sec) := by omega
  have hr1 : 3600 * hour + (60 * minute + sec) < 86400 := by omega
  have h86 : X % 86400 = 3600 * hour + (60 * minute + sec) := by
    rw [hX]
    exact (int_div_decomp 86400 k _ hr0 hr1).2
  have h60 : X % 60 = sec := by
    have hdvd : X % 60 = (X % 86400) % 60 :=
      (Int.emod_emod_of_dvd X (by norm_num : (60 : Int) ∣ 86400)).symm
    rw [hdvd, h86,
      show 3600 * hour + (60 * minute + sec) =
        60 * (60 * hour + minute) + sec by ring]
    exact (int_div_decomp 60 (60 * hour + minute) sec hs0 hs1).2
  refine ⟨?_, ?_, h60⟩
  · show X % 86400 / 3600 = hour
    rw [h86]
    exact (int_div_decomp 3600 hour _ hu0 hu1).1
  · show X % 86400 % 3600 / 60 = minute
    rw [h86, (int_div_decomp 3600 hour _ hu0 hu1).2]
    exact (int_div_decomp 60 minute sec hs0 hs1).1

/-- Claim C1 (code bug): for a sunrise/sunset `DailySchedule`,
`RegisterSchedules` leaves the schedules priority queue unchanged — the
source's `app.schedules.Put()` call passes no item, so no item holding the
schedule (with any priority) is ever enqueued, contrary to the claim. -/
theorem registerSchedules_sun_queue_unchanged (now : Int) (s : DailySchedule)
    (q : List SchedItem) (h : s.isSunrise = true ∨ s.isSunset = true) :
    registerScheduleStep now s q = q := by
  rcases h with h | h <;> simp [registerScheduleStep, h]

/-- Witness for `registerSchedules_sun_queue_unchanged`: a sunrise schedule
registered against the empty queue leaves it empty. -/
theorem registerSchedules_sun_queue_unchanged_witness :
    registerScheduleStep 1000 ⟨0, 0, true, false⟩ [] = [] :=
  registerSchedules_sun_queue_unchanged 1000 ⟨0, 0, true, false⟩ []
    (Or.inl rfl)

/-- Claim C2 (code bug): `SunTrigger.NextTime` can return an instant that is
not after `now`.  With sunset at 18:00 (64800 s) on `now`'s day and `now` at
23:00 (82800 s), the sunset variant returns today's 18:00, which is before
`now` — contradicting the `Trigger` interface contract ("the next occurrence
of this trigger after the given time"). -/
theorem sunTrigger_nextTime_not_after_now :
    sunTriggerNextTime true none (some 21600) (some 64800) = some 64800 ∧
    (64800 : Int) < 82800 := by
  exact ⟨rfl, by decide⟩

/-- Claim C3, counterexample: `FixedTimeTrigger{14, 30}.NextTime` at
`now = 00:00:45` returns `14:30:45` — the local second component is `now`'s
seconds, not 0 as the claim states. -/
theorem fixedTime_nextTime_second_nonzero :
    localSecond (fixedTimeNextTime 14 30 45) ≠ 0 := by decide

/-- Claim C3 (amended): `FixedTimeTrigger.NextTime(now)` has local hour and
minute components exactly `(h, m)`, its second component equals `now`'s local
second component (which `SetHour`/`SetMinute` preserve), and it lies in
`(now, now + 24h]`. -/
theorem fixedTime_nextTime_components (hour minute now : Int)
    (hh : 0 ≤ hour ∧ hour ≤ 23) (hm : 0 ≤ minute ∧ minute ≤ 59) :
    localHour (fixedTimeNextTime hour minute now) = hour ∧
    localMinute (fixedTimeNextTime hour minute now) = minute ∧
    localSecond (fixedTimeNextTime hour minute now) = now % 60 ∧
    now < fixedTimeNextTime hour minute now ∧
    fixedTimeNextTime hour minute now ≤ now + 86400 := by
  obtain ⟨hh0, hh1⟩ := hh
  obtain ⟨hm0, hm1⟩ := hm
  have hs0 : (0 : Int) ≤ now % 60 := by omega
  have hs1 : now % 60 < 60 := by omega
  unfold fixedTimeNextTime dayStart
  dsimp only
  split
  next h =>
    obtain ⟨e1, e2, e3⟩ :=
      localFields_of_decomp
        (now - now % 86400 + 3600 * hour + 60 * minute + now % 60)
        (now / 86400) hour minute (now % 60)
        hh0 hh1 hm0 hm1 hs0 hs1 (by omega)
    exact ⟨e1, e2, e3, by omega, by omega⟩
  next h =>
    obtain ⟨e1, e2, e3⟩ :=
      localFields_of_decomp
        (now - now % 86400 + 3600 * hour + 60 * minute + now % 60
          + 86400)
        (now / 86400 + 1) hour minute (now % 60)
        hh0 hh1 hm0 hm1 hs0 hs1 (by omega)
    exact ⟨e1, e2, e3, by omega, by omega⟩

/-- Witness for `fixedTime_nextTime_components` at `FixedTime(14, 30)`,
`now = 45`. -/
theorem fixedTime_nextTime_components_witness :
    localHour (fixedTimeNextTime 14 30 45) = 14 ∧
    localMinute (fixedTimeNextTime 14 30 45) = 30 ∧
    localSecond (fixedTimeNextTime 14 30 45) = (45 : Int) % 60 ∧
    (45 : Int) < fixedTimeNextTime 14 30 45 ∧
    fixedTimeNextTime 14 30 45 ≤ 45 + 86400 :=
  fixedTime_nextTime_components 14 30 45 ⟨by decide, by decide⟩
    ⟨by decide, by decide⟩

/-- Claim C4, counterexample: with throttle d = 1.5 s, `lastRan` at instant
0 and `now` 1.2 s later, the elapsed time (1.2 s) is below d, yet
`CheckThrottle` passes: it compares the whole-second timestamp difference
(1 s) against the truncated throttle (1 s), so `1 < 1` fails and the check
does not. -/
theorem checkThrottle_subsecond_cex :
    ¬ ((checkThrottle 1500000000 0 1200000000 = false) ↔
      ((1500000000 : Int) = 0 ∨
        (1200000000 : Int) - 0 ≥ 1500000000)) := by
  decide

/-- Claim C4 (amended): the throttle check passes iff `d ≤ 0` or the
unix-second timestamps of `now` and `lastRan` differ in absolute value by at
least `d` truncated to whole seconds — a second-granularity comparison, not
an exact `(now - lastRan) ≥ d`. -/
theorem checkThrottle_pass_iff (throttle lastRan now : Int) :
    (checkThrottle throttle lastRan now = false) ↔
    (throttle ≤ 0 ∨
      throttle.tdiv 1000000000 ≤
        |now.fdiv 1000000000 - lastRan.fdiv 1000000000|) := by
  unfold checkThrottle
  simp only [decide_eq_false_iff_not]
  generalize |now.fdiv 1000000000 - lastRan.fdiv 1000000000| = A
  generalize throttle.tdiv 1000000000 = B
  constructor
  · intro hn
    by_cases ht : 0 < throttle
    · right
      by_contra hB
      exact hn ⟨ht, by omega⟩
    · left
      omega
  · rintro (h | h) ⟨h1, h2⟩ <;> omega

/-- Claim C6: with both bounds set, `CheckWithinTimeRange` passes iff `now`'s
time of day lies in `[start, end)` — interpreted circularly when
`end < start` (midnight crossing, extending whichever side contains now). -/
theorem checkWithinTimeRange_pass_iff (s e now : Int)
    (hs : 0 ≤ s ∧ s < 86400) (he : 0 ≤ e ∧ e < 86400) :
    (checkWithinTimeRange (some s) (some e) now = false) ↔
    (if e < s then s ≤ now % 86400 ∨ now % 86400 < e
     else s ≤ now % 86400 ∧ now % 86400 < e) := by
  unfold checkWithinTimeRange dayStart
  dsimp only
  split_ifs <;>
    simp only [Bool.not_eq_false', decide_eq_true_eq] <;> omega

/-- Witness for `checkWithinTimeRange_pass_iff` at the claim's instances:
start 23:00, end 07:00 — pass at 03:00 and 23:30, fail at 12:00. -/
theorem checkWithinTimeRange_pass_iff_witness :
    checkWithinTimeRange (some 82800) (some 25200) 10800 = false ∧
    checkWithinTimeRange (some 82800) (some 25200) 43200 = true ∧
    checkWithinTimeRange (some 82800) (some 25200) 84600 = false := by
  have h1 := checkWithinTimeRange_pass_iff 82800 25200 10800
    ⟨by decide, by decide⟩ ⟨by decide, by decide⟩
  have h2 := checkWithinTimeRange_pass_iff 82800 25200 43200
    ⟨by decide, by decide⟩ ⟨by decide, by decide⟩
  have h3 := checkWithinTimeRange_pass_iff 82800 25200 84600
    ⟨by decide, by decide⟩ ⟨by decide, by decide⟩
  refine ⟨h1.mpr (by decide), ?_, h3.mpr (by decide)⟩
  cases hc : checkWithinTimeRange (some 82800) (some 25200) 43200
  · exact absurd (h2.mp hc) (by decide)
  · rfl

/-- The loop body of `CompositeDailySchedule.NextTime` computes the
`none`-ignoring minimum of its two arguments. -/
theorem compositeStep_eq (a b : Option Int) :
    compositeStep a b = optMinStep b a := by
  cases a with
  | none => cases b <;> rfl
  | some p =>
      cases b with
      | none => rfl
      | some q =>
          show (if q < p then some q else some p) = some (min q p)
          rcases lt_or_le q p with h | h
          · rw [if_pos h, min_eq_left h.le]
          · rw [if_neg (not_lt.mpr h), min_eq_right h]

/-- `optMinStep` is commutative. -/
theorem optMinStep_comm (x y : Option Int) :
    optMinStep x y = optMinStep y x := by
  cases x <;> cases y <;> simp [optMinStep, min_comm]

/-- `optMinStep` is associative. -/
theorem optMinStep_assoc (x y z : Option Int) :
    optMinStep (optMinStep x y) z = optMinStep x (optMinStep y z) := by
  cases x <;> cases y <;> cases z <;> simp [optMinStep, min_assoc]

/-- `specMinOfOptions` unfolded through `compositeStep`. -/
theorem specMinOfOptions_cons (x : Option Int) (xs : List (Option Int)) :
    specMinOfOptions (x :: xs) = compositeStep (specMinOfOptions xs) x := by
  rw [compositeStep_eq]
  rfl

/-- `compositeStep` absorbs a nested step: folding in `compositeStep a b` is
the same as folding in `b` then `a`. -/
theorem compositeStep_swap (m a b : Option Int) :
    compositeStep m (compositeStep a b) =
      compositeStep (compositeStep m b) a := by
  rw [compositeStep_eq, compositeStep_eq, compositeStep_eq, compositeStep_eq]
  rw [optMinStep_assoc, optMinStep_comm a (optMinStep b m),
    optMinStep_assoc, optMinStep_comm m a]

/-- The fold inside `CompositeDailySchedule.NextTime` computes
`specMinOfOptions` of the accumulator and the remaining children. -/
theorem foldl_compositeStep_eq (rest : List (Option Int)) :
    ∀ first, List.foldl compositeStep first rest =
      specMinOfOptions (first :: rest) := by
  induction rest with
  | nil =>
      intro first
      cases first <;> simp [specMinOfOptions, optMinStep]
  | cons x xs ih =>
      intro first
      rw [List.foldl_cons, ih (compositeStep first x),
        specMinOfOptions_cons, specMinOfOptions_cons,
        specMinOfOptions_cons, compositeStep_swap]

/-- `specMinOfOptions` is `none` exactly when every element is `none`. -/
theorem specMinOfOptions_eq_none_iff (l : List (Option Int)) :
    specMinOfOptions l = none ↔ ∀ x ∈ l, x = none := by
  induction l with
  | nil => simp [specMinOfOptions]
  | cons x xs ih =>
      cases x <;> cases hxs : specMinOfOptions xs <;>
        simp_all [specMinOfOptions, optMinStep, hxs] <;> try exact ih

/-- Claim C7: for a non-empty child list, `CompositeDailySchedule.NextTime`
is the minimum of the children's results ignoring `nil`, and is `nil` only
when every child returned `nil`. -/
theorem compositeNextTime_eq_min (first : Option Int)
    (rest : List (Option Int)) :
    compositeNextTime first rest = specMinOfOptions (first :: rest) ∧
    (compositeNextTime first rest = none ↔
      ∀ x ∈ first :: rest, x = none) := by
  have h : compositeNextTime first rest = specMinOfOptions (first :: rest) :=
    foldl_compositeStep_eq rest first
  exact ⟨h, by rw [h]; exact specMinOfOptions_eq_none_iff _⟩

/-- Claim C8: for a single-interval trigger with interval `d > 0` and epoch
`E ≤ now`, `NextTime(now)` is defined, strictly after `now`, and lands on
the grid `E + k·d`. -/
theorem intervalNextTime_single_alignment (d epoch now : Int)
    (hd : 0 < d) (hnow : epoch ≤ now) :
    ∃ r, intervalNextTime ⟨d, [], some epoch, d⟩ now = some r ∧
      now < r ∧ (r - epoch) % d = 0 := by
  have htd : (now - epoch).tdiv d = (now - epoch) / d :=
    Int.tdiv_eq_ediv (by omega) (by omega)
  have hde : (now - epoch) / d * d + (now - epoch) % d = now - epoch :=
    Int.ediv_add_emod' (now - epoch) d
  have hm0 : 0 ≤ (now - epoch) % d := Int.emod_nonneg _ (by omega)
  have hm1 : (now - epoch) % d < d := Int.emod_lt_of_pos _ hd
  refine ⟨epoch + (now - epoch) / d * d + d, ?_, by linarith, ?_⟩
  · have hlt : now < epoch + (now - epoch) / d * d + d := by linarith
    unfold intervalNextTime
    dsimp only [Option.getD]
    rw [htd, if_neg (by omega : ¬ d = 0), if_neg (by omega : ¬ now < epoch)]
    unfold intervalScan
    dsimp only
    rw [if_pos hlt]
  · have hrw : epoch + (now - epoch) / d * d + d - epoch =
        ((now - epoch) / d + 1) * d := by ring
    rw [hrw, Int.mul_emod_left]

/-- Witness for `intervalNextTime_single_alignment`: interval 3600, epoch 0,
now 5000. -/
theorem intervalNextTime_single_alignment_witness :
    ∃ r, intervalNextTime ⟨3600, [], some 0, 3600⟩ 5000 = some r ∧
      (5000 : Int) < r ∧ (r - 0) % 3600 = 0 :=
  intervalNextTime_single_alignment 3600 0 5000 (by decide) (by decide)

/-- Claim C9, counterexample: an interval with frequency −60 s whose parsed
start time (today 00:00) is not before `now` (= local midnight) is enqueued
rather than rejected — the source only panics on `frequency == 0`. -/
theorem registerIntervals_negative_enqueued_cex :
    registerIntervalOutcome (-60) 0 0 0 = .enqueued 0 ∧
    ¬ (0 : Int) < -60 := by
  exact ⟨rfl, by decide⟩

/-- Claim C9 (amended): `RegisterIntervals` fails fast (panics) exactly when
the interval's frequency is zero; only intervals with non-zero frequency are
ever enqueued. -/
theorem registerIntervals_failFast_iff (frequency hour minute now : Int) :
    (registerIntervalOutcome frequency hour minute now = .failFast ↔
      frequency = 0) ∧
    (∀ p, registerIntervalOutcome frequency hour minute now = .enqueued p →
      frequency ≠ 0) := by
  unfold registerIntervalOutcome
  by_cases hf : frequency = 0
  · simp [hf]
  · rw [if_neg hf]
    dsimp only
    refine ⟨⟨fun h => ?_, fun h => absurd h hf⟩, fun p _ => hf⟩
    revert h
    split_ifs <;> simp

/-- Witness for `registerIntervals_failFast_iff`: a zero-frequency interval
panics at registration. -/
theorem registerIntervals_failFast_iff_witness :
    registerIntervalOutcome 0 0 0 5 = .failFast :=
  (registerIntervals_failFast_iff 0 0 0 5).1.mpr rfl

/-- Every run of the per-listener dispatch body either leaves the runtime
state unchanged, stops the last timer (only when one exists), starts a delay
timer (only when `delay ≠ 0`), or fires immediately (only when
`delay = 0`). -/
theorem callListenerStep_cases (env : DispatchEnv) (l : EntityListener)
    (e : StateChangedEvent) (rt : ListenerRuntime) :
    callListenerStep env l e rt = rt ∨
    (callListenerStep env l e rt =
        { rt with timers := stopLastTimer rt.timers } ∧ rt.timers ≠ []) ∨
    (callListenerStep env l e rt =
        { rt with timers := rt.timers ++ [false] } ∧ l.delay ≠ 0) ∨
    (callListenerStep env l e rt =
        { rt with immediateFires := rt.immediateFires + 1,
                  lastRan := env.now } ∧ l.delay = 0) := by
  unfold callListenerStep
  split_ifs with hw hf ht htm hth hed her hen hdi hde
  · exact Or.inl rfl
  · exact Or.inl rfl
  · exact Or.inr (Or.inl ⟨rfl, htm⟩)
  · exact Or.inl rfl
  · exact Or.inl rfl
  · exact Or.inl rfl
  · exact Or.inl rfl
  · exact Or.inl rfl
  · exact Or.inl rfl
  · exact Or.inr (Or.inr (Or.inl ⟨rfl, hde⟩))
  · exact Or.inr (Or.inr (Or.inr ⟨rfl, not_ne_iff.mp (by assumption)⟩))

/-- Claim C5, counterexample: a listener with `delay = 5 s`, `toState = "on"`
**and** `fromState = "off"` sees `off → on` (timer started) then `on → off`
within the delay; the second event fails the `fromState` check, which runs
*before* the `toState` check, so the listener is skipped without stopping the
timer and the callback still fires — contradicting "the callback never
fires". -/
theorem delay_cancellation_fromState_cex :
    totalFires
      (callEntityListeners ⟨0, fun _ => .error ()⟩
        ⟨["binary_sensor.door"], "off", "on", 0, 5000000000, none, none,
          [], [], [], [], false, false⟩
        ⟨"binary_sensor.door", "on", "off"⟩
        (callEntityListeners ⟨0, fun _ => .error ()⟩
          ⟨["binary_sensor.door"], "off", "on", 0, 5000000000, none, none,
            [], [], [], [], false, false⟩
          ⟨"binary_sensor.door", "off", "on"⟩ ⟨[], 0, 0⟩)) = 1 := by
  decide

/-- Claim C5 (amended): with `delay = D > 0` and `toState = X`, and with the
checks that run before the `toState` comparison passing on the second event
(no time window and no `fromState` filter configured), a `*→X` transition
followed within `D` by a `*→Y` transition with `Y ≠ X` never fires the
callback: the `toState` mismatch on the second event stops the pending delay
timer. -/
theorem delay_cancellation_guarded
    (l : EntityListener) (env1 env2 : DispatchEnv) (rt0 : ListenerRuntime)
    (e1 e2 : StateChangedEvent)
    (hti : rt0.timers = []) (hfi : rt0.immediateFires = 0)
    (hdelay : l.delay ≠ 0)
    (hfrom : l.fromState = "")
    (hbs : l.betweenStart = none) (hbe : l.betweenEnd = none)
    (hto : l.toState ≠ "")
    (hnew : e2.newState ≠ l.toState)
    (hold : e2.oldState ≠ e2.newState)
    (hid : l.entityIds.contains e2.entityId = true) :
    totalFires (callEntityListeners env2 l e2
      (callEntityListeners env1 l e1 rt0)) = 0 := by
  have h1 : (callEntityListeners env1 l e1 rt0).immediateFires = 0 ∧
      ((callEntityListeners env1 l e1 rt0).timers = [] ∨
        (callEntityListeners env1 l e1 rt0).timers = [false]) := by
    unfold callEntityListeners
    split_ifs with hcont hsame
    · exact ⟨hfi, Or.inl hti⟩
    · exact ⟨hfi, Or.inl hti⟩
    · rcases callListenerStep_cases env1 l e1 rt0 with
        h | ⟨h, hne⟩ | ⟨h, _⟩ | ⟨h, hz⟩
      · rw [h]
        exact ⟨hfi, Or.inl hti⟩
      · exact absurd hti hne
      · rw [h]
        refine ⟨hfi, Or.inr ?_⟩
        simp [hti]
      · exact absurd hz hdelay
  obtain ⟨hf1, ht1⟩ := h1
  have hw2 : checkWithinTimeRange l.betweenStart l.betweenEnd
      (env2.now.fdiv 1000000000) = false := by
    rw [hbs, hbe]
    rfl
  have hfs2 : checkStatesMatch l.fromState e2.oldState = false := by
    rw [hfrom]
    simp [checkStatesMatch]
  have hts2 : checkStatesMatch l.toState e2.newState = true := by
    simp only [checkStatesMatch, decide_eq_true_eq]
    exact ⟨hto, Ne.symm hnew⟩
  set rt1 := callEntityListeners env1 l e1 rt0 with hrt1
  unfold callEntityListeners
  rw [if_neg (show ¬(!(l.entityIds.contains e2.entityId)) = true by
      rw [hid]; decide),
    if_neg (fun h => hold h.symm)]
  unfold callListenerStep
  rw [if_neg (by rw [hw2]; exact Bool.false_ne_true),
    if_neg (by rw [hfs2]; exact Bool.false_ne_true), if_pos hts2]
  rcases ht1 with h | h
  · rw [if_neg (by simp [h])]
    simp [totalFires, pendingFires, hf1, h]
  · rw [if_pos (by simp [h])]
    have hs : stopLastTimer rt1.timers = [true] := by
      rw [h]
      rfl
    simp [totalFires, pendingFires, hs, hf1]

/-- Witness for `delay_cancellation_guarded`: the claim's scenario with no
`fromState` filter — `off → on` then `on → off` within the delay, callback
never fires. -/
theorem delay_cancellation_guarded_witness :
    totalFires
      (callEntityListeners ⟨0, fun _ => .error ()⟩
        ⟨["binary_sensor.door"], "", "on", 0, 5000000000, none, none,
          [], [], [], [], false, false⟩
        ⟨"binary_sensor.door", "on", "off"⟩
        (callEntityListeners ⟨0, fun _ => .error ()⟩
          ⟨["binary_sensor.door"], "", "on", 0, 5000000000, none, none,
            [], [], [], [], false, false⟩
          ⟨"binary_sensor.door", "off", "on"⟩ ⟨[], 0, 0⟩)) = 0 :=
  delay_cancellation_guarded
    ⟨["binary_sensor.door"], "", "on", 0, 5000000000, none, none,
      [], [], [], [], false, false⟩
    ⟨0, fun _ => .error ()⟩ ⟨0, fun _ => .error ()⟩ ⟨[], 0, 0⟩
    ⟨"binary_sensor.door", "off", "on"⟩ ⟨"binary_sensor.door", "on", "off"⟩
    rfl rfl (by decide) rfl rfl rfl (by decide) (by decide) (by decide)
    (by decide)

/-- Claim C10: in `App.Start`'s `runOnStartup` pass, a failed entity-state
fetch does not suppress the startup invocation: the listener is still
invoked, with the zero-value entity state as both `FromState` and `ToState`,
and `runOnStartupCompleted` is still set. -/
theorem runOnStartup_fetch_error_still_invokes (eid : String)
    (l : EntityListener) (err : Unit)
    (hr : l.runOnStartup = true) (hc : l.runOnStartupCompleted = false) :
    runOnStartupStep (.error err) eid l = (true, some ⟨eid, "", ""⟩) := by
  simp [runOnStartupStep, stateGetValue, hr, hc]

/-- Witness for `runOnStartup_fetch_error_still_invokes` on a concrete
listener watching `light.a`. -/
theorem runOnStartup_fetch_error_still_invokes_witness :
    runOnStartupStep (.error ()) "light.a"
      ⟨["light.a"], "", "", 0, 0, none, none, [], [], [], [], true, false⟩ =
      (true, some ⟨"light.a", "", ""⟩) :=
  runOnStartup_fetch_error_still_invokes "light.a"
    ⟨["light.a"], "", "", 0, 0, none, none, [], [], [], [], true, false⟩ ()
    rfl rfl

end GoHA
